import Mathlib

/-!
# Vessel table formatter and CustomField schema

A shallow embedding of

* `src/Hylapps/src/layouts/ShipRADAR/Vesseleighthours.js`
  (`sortGeofenceType`, `formatEntries`, `handleRowClick`, the fetch / render
  state of the component), and
* `src/backend/models/CustomField.js` (`CustomFieldSchema`).

JavaScript values are embedded as an inductive type of JSON scalars, property
lookups that can miss return `JSVal.undefined`, `a || b` is `jsOr`, and the
number produced by the comparator is a `JSNumber` (an integer or `NaN`).
`Array.prototype.sort` is embedded as the engine runs it (`arraySort`), a
TypeError that the code does not catch is an outcome of its own.
-/

namespace Vesseleighthours

/-! ## JavaScript values -/

/-- A scalar a JSON payload can put in a field, and `undefined` for a property
that is not there. Numbers are the integer-valued ones. -/
inductive JSVal where
  | undefined
  | null
  | bool (b : Bool)
  | num (n : Int)
  | str (s : String)
  deriving DecidableEq

/-- ToBoolean: `undefined`, `null`, `false`, `0` and `""` are falsy. -/
def truthy : JSVal → Bool
  | .undefined => false
  | .null => false
  | .bool b => b
  | .num n => n != 0
  | .str s => s != ""

/-- The expression `x || d`. -/
def jsOr (x d : JSVal) : JSVal :=
  if truthy x then x else d

/-- ToPropertyKey of a scalar, as used by `order[a.GeofenceType]`: a string is
its own key, a number is written in decimal digits (below 10^21), the other
scalars by their keyword. -/
def toPropertyKey : JSVal → String
  | .undefined => "undefined"
  | .null => "null"
  | .bool true => "true"
  | .bool false => "false"
  | .num n => toString n
  | .str s => s

/-- A JavaScript number as the comparator can produce it. -/
inductive JSNumber where
  | nan
  | int (n : Int)
  deriving DecidableEq

/-- The value of a property read on the object literal `order`. -/
inductive PropValue where
  | number (n : Int)
  | inherited (key : String)
  | undefined
  deriving DecidableEq

/-! ## Data model -/

/-- The nested `AIS` object of a tracked vessel (the four properties read). -/
structure AISData where
  IMO : JSVal
  NAME : JSVal
  ETA : JSVal
  DESTINATION : JSVal
  deriving DecidableEq

/-- A tracked-vessel record as `formatEntries` reads it. `AIS = none` is an
`AIS` property that is missing or `null` (`vessel.AIS?.X` is then
`undefined`). -/
structure TrackedVessel where
  AIS : Option AISData
  GeofenceStatus : JSVal
  GeofenceType : JSVal
  CaseId : JSVal
  Info1 : JSVal
  ETATime : JSVal
  ETADate : JSVal
  Agent : JSVal
  AgentName : JSVal
  deriving DecidableEq

/-- The object literal built by the `map` callback of `formatEntries`. -/
structure VesselRow where
  IMO : JSVal
  AISName : JSVal
  GeofenceStatus : JSVal
  ETA : JSVal
  Destination : JSVal
  GeofenceType : JSVal
  CaseId : JSVal
  Info1 : JSVal
  ETATime : JSVal
  ETADate : JSVal
  Agent : JSVal
  AgentName : JSVal
  deriving DecidableEq

/-! ## `sortGeofenceType` -/

/-- Own properties of `const order = { Berth: 1, Terminal: 2, Anchorage: 3, 'N/A': 4 }`. -/
def orderOwn : List (String × Int) :=
  [("Berth", 1), ("Terminal", 2), ("Anchorage", 3), ("N/A", 4)]

/-- Property names every object literal inherits from `Object.prototype`
(ECMA-262 20.1.3 and Annex B.2.2); each holds a function, `__proto__` yields
the prototype object. -/
def objectPrototypeKeys : List String :=
  ["constructor", "hasOwnProperty", "isPrototypeOf", "propertyIsEnumerable",
   "toLocaleString", "toString", "valueOf", "__proto__", "__defineGetter__",
   "__defineSetter__", "__lookupGetter__", "__lookupSetter__"]

/-- The read `order[key]`: an own property, else one found on the prototype
chain, else `undefined`. -/
def orderGet (key : String) : PropValue :=
  match orderOwn.lookup key with
  | some n => .number n
  | none => if key ∈ objectPrototypeKeys then .inherited key else .undefined

/-- The expression `p || d` for a property value `p` and a number `d`: functions and
objects are truthy, `undefined` and `0` are falsy. -/
def orDefault (p : PropValue) (d : Int) : PropValue :=
  match p with
  | .number n => if n = 0 then .number d else .number n
  | .inherited k => .inherited k
  | .undefined => .number d

/-- ToNumber: a function or a plain object converts to `NaN`. -/
def toNumber : PropValue → JSNumber
  | .number n => .int n
  | .inherited _ => .nan
  | .undefined => .nan

/-- Subtraction of JavaScript numbers; `NaN` is absorbing. -/
def jsSub : JSNumber → JSNumber → JSNumber
  | .int a, .int b => .int (a - b)
  | _, _ => .nan

/-- The operand `(order[v] || 5)` of the comparator, converted by the `-`. -/
def orderOperand (v : JSVal) : JSNumber :=
  toNumber (orDefault (orderGet (toPropertyKey v)) 5)

/-- The source comparator:
`(order[a.GeofenceType] || 5) - (order[b.GeofenceType] || 5)`. -/
def sortGeofenceType (a b : VesselRow) : JSNumber :=
  jsSub (orderOperand a.GeofenceType) (orderOperand b.GeofenceType)

/-! ## `Array.prototype.sort` -/

/-- CompareArrayElements of ECMA-262 (23.1.3.30.2) for elements that are not
`undefined`: the comparator result, with `NaN` replaced by `+0`. -/
def compareArrayElements {α : Type} (comparefn : α → α → JSNumber) (x y : α) : Int :=
  match comparefn x y with
  | .nan => 0
  | .int n => n

/-- Whether the run scan of `CountAndMakeRun` stops at an element, given the
order of that element against its predecessor: a descending run ends at
`order >= 0`, an ascending run at `order < 0`. -/
def runBreaks (isDescending : Bool) (order : Int) : Bool :=
  if isDescending then decide (0 ≤ order) else decide (order < 0)

/-- The `for` loop of `CountAndMakeRun`: the elements that continue the run
after `previousElement`, and the elements left over. -/
def splitRun {α : Type} (comparefn : α → α → JSNumber) (isDescending : Bool) :
    α → List α → List α × List α
  | _, [] => ([], [])
  | previousElement, currentElement :: rest =>
    if runBreaks isDescending
        (compareArrayElements comparefn currentElement previousElement) then
      ([], currentElement :: rest)
    else
      (currentElement :: (splitRun comparefn isDescending currentElement rest).1,
        (splitRun comparefn isDescending currentElement rest).2)

/-- The step `CountAndMakeRun` of the engine sort: the longest run at the start
of the array and the elements after it. The run is descending when the second
element compares below the first (`order < 0`), and a descending run is
reversed in place. -/
def countAndMakeRun {α : Type} (comparefn : α → α → JSNumber) :
    List α → List α × List α
  | [] => ([], [])
  | [a] => ([a], [])
  | first :: second :: rest =>
    if compareArrayElements comparefn second first < 0 then
      ((first :: second :: (splitRun comparefn true second rest).1).reverse,
        (splitRun comparefn true second rest).2)
    else
      (first :: second :: (splitRun comparefn false second rest).1,
        (splitRun comparefn false second rest).2)

/-- The loop `while (left < right)` of `BinaryInsertionSort`: with
`mid = left + ((right - left) >> 1)` and `order = Compare(pivot, a[mid])`, it
continues in `[left, mid)` when `order < 0` and in `[mid + 1, right)`
otherwise. The first argument bounds the number of rounds; the length of the
sorted part is enough (`findInsertionPoint_fuel`). -/
def findInsertionPoint {α : Type} (comparefn : α → α → JSNumber) (pivot : α)
    (sorted : List α) : Nat → Nat → Nat → Nat
  | 0, left, _ => left
  | fuel + 1, left, right =>
    if left < right then
      match sorted[left + (right - left) / 2]? with
      | none => left
      | some midElement =>
        if compareArrayElements comparefn pivot midElement < 0 then
          findInsertionPoint comparefn pivot sorted fuel left (left + (right - left) / 2)
        else
          findInsertionPoint comparefn pivot sorted fuel (left + (right - left) / 2 + 1) right
    else left

/-- One round of the outer loop of `BinaryInsertionSort`: the pivot, the
element after the sorted part, is moved to its insertion point. -/
def binaryInsert {α : Type} (comparefn : α → α → JSNumber) (sorted : List α) (pivot : α) :
    List α :=
  sorted.take (findInsertionPoint comparefn pivot sorted sorted.length 0 sorted.length) ++
    pivot :: sorted.drop (findInsertionPoint comparefn pivot sorted sorted.length 0 sorted.length)

/-- The step `BinaryInsertionSort` of the engine sort: the elements after the
sorted part are inserted one by one, from left to right. -/
def binaryInsertionSort {α : Type} (comparefn : α → α → JSNumber) (sorted rest : List α) :
    List α :=
  rest.foldl (binaryInsert comparefn) sorted

/-- The call `xs.sort(comparefn)` as the V8 engine (Chrome, Node.js) runs it,
its TimSort of `third_party/v8/builtins/array-sort.tq`: `CountAndMakeRun`
takes the run at the start of the array and `BinaryInsertionSort` extends it
over the other elements. An array of fewer than 64 elements is sorted as this
one run, so there the embedding is the whole algorithm, whatever the
comparator returns. From 64 elements on V8 builds runs of 32 to 64 elements in
this way and merges them; the merge is not embedded. With a comparator that
is the difference of a key the result is the stable sort by the key at every
length (`arraySort_eq_insertionSort`), which ECMA-262 fixes for every engine. -/
def arraySort {α : Type} (comparefn : α → α → JSNumber) (xs : List α) : List α :=
  binaryInsertionSort comparefn (countAndMakeRun comparefn xs).1
    (countAndMakeRun comparefn xs).2

/-- The order the run scan accepts for neighbours: `y` may follow `x` when
`Compare(y, x) >= 0`. -/
def runLE {α : Type} (comparefn : α → α → JSNumber) (x y : α) : Prop :=
  0 ≤ compareArrayElements comparefn y x

/-- The order by a key. -/
def keyLE {α : Type} (k : α → Int) (x y : α) : Prop := k x ≤ k y

instance keyLE_decidable {α : Type} (k : α → Int) : DecidableRel (keyLE k) :=
  fun x y => inferInstanceAs (Decidable (k x ≤ k y))

instance keyLE_isTotal {α : Type} (k : α → Int) : IsTotal α (keyLE k) :=
  ⟨fun x y => le_total (k x) (k y)⟩

instance keyLE_isTrans {α : Type} (k : α → Int) : IsTrans α (keyLE k) :=
  ⟨fun x y z (h1 : k x ≤ k y) (h2 : k y ≤ k z) => le_trans h1 h2⟩

/-- A consistent comparator: the difference of a key. -/
def KeyComparator {α : Type} (comparefn : α → α → JSNumber) (k : α → Int) : Prop :=
  ∀ x y, compareArrayElements comparefn x y = k x - k y

/-! ## `formatEntries` -/

/-- The optional chain `vessel.AIS?.X`. -/
def aisField (v : TrackedVessel) (f : AISData → JSVal) : JSVal :=
  match v.AIS with
  | none => .undefined
  | some a => f a

/-- The `map` callback of `formatEntries`. -/
def formatRow (vessel : TrackedVessel) : VesselRow where
  IMO := jsOr (aisField vessel AISData.IMO) (.str "N/A")
  AISName := jsOr (aisField vessel AISData.NAME) (.str "Unknown Vessel")
  GeofenceStatus := jsOr vessel.GeofenceStatus (.str "-")
  ETA := jsOr (aisField vessel AISData.ETA) (.str "N/A")
  Destination := jsOr (aisField vessel AISData.DESTINATION) (.str "N/A")
  GeofenceType := jsOr vessel.GeofenceType (.str "-")
  CaseId := jsOr vessel.CaseId (.str "-")
  Info1 := jsOr vessel.Info1 (.str "-")
  ETATime := jsOr vessel.ETATime (.str "-")
  ETADate := jsOr vessel.ETADate (.str "-")
  Agent := jsOr vessel.Agent (.str "N/A")
  AgentName := jsOr vessel.AgentName (.str "N/A")

/-- The source function `formatEntries`: `trackedVessels.map(...).sort(sortGeofenceType)`. -/
def formatEntries (trackedVessels : List TrackedVessel) : List VesselRow :=
  arraySort sortGeofenceType (trackedVessels.map formatRow)

/-- A record that carries only a geofence type (every other property missing). -/
def vesselOfType (t : String) : TrackedVessel where
  AIS := none
  GeofenceStatus := .undefined
  GeofenceType := .str t
  CaseId := .undefined
  Info1 := .undefined
  ETATime := .undefined
  ETADate := .undefined
  Agent := .undefined
  AgentName := .undefined

/-- A record that carries a geofence type and a numeric case id. -/
def vesselOfCase (t : String) (caseId : Int) : TrackedVessel :=
  { vesselOfType t with CaseId := .num caseId }

/-- A row handed back to `formatEntries` as if it were a tracked-vessel record:
the properties `formatEntries` reads on it. A row has no `AIS` property. -/
def rowAsVessel (r : VesselRow) : TrackedVessel where
  AIS := none
  GeofenceStatus := r.GeofenceStatus
  GeofenceType := r.GeofenceType
  CaseId := r.CaseId
  Info1 := r.Info1
  ETATime := r.ETATime
  ETADate := r.ETADate
  Agent := r.Agent
  AgentName := r.AgentName

/-- The rank table the specification gives for a geofence type:
Berth = 1, Terminal = 2, Anchorage = 3, "N/A" = 4, anything else = 5. -/
def geofenceRank (t : JSVal) : Int :=
  if toPropertyKey t = "Berth" then 1
  else if toPropertyKey t = "Terminal" then 2
  else if toPropertyKey t = "Anchorage" then 3
  else if toPropertyKey t = "N/A" then 4
  else 5

/-- The order of two rows by the rank table of the specification. -/
def rankLE (a b : VesselRow) : Prop :=
  geofenceRank a.GeofenceType ≤ geofenceRank b.GeofenceType

instance rankLE_decidable : DecidableRel rankLE :=
  fun a b => inferInstanceAs
    (Decidable (geofenceRank a.GeofenceType ≤ geofenceRank b.GeofenceType))

instance rankLE_isTotal : IsTotal VesselRow rankLE :=
  ⟨fun a b => le_total (geofenceRank a.GeofenceType) (geofenceRank b.GeofenceType)⟩

instance rankLE_isTrans : IsTrans VesselRow rankLE :=
  ⟨fun a b c (h1 : geofenceRank a.GeofenceType ≤ geofenceRank b.GeofenceType)
    (h2 : geofenceRank b.GeofenceType ≤ geofenceRank c.GeofenceType) => le_trans h1 h2⟩

/-- The stable sort by rank the specification describes. -/
def stableSortByRank (rows : List VesselRow) : List VesselRow :=
  rows.insertionSort rankLE

/-- The comparator the specification describes: the difference of the ranks. -/
def rankCompare (a b : VesselRow) : JSNumber :=
  .int (geofenceRank a.GeofenceType - geofenceRank b.GeofenceType)

/-- A geofence type whose property key is not a name inherited from
`Object.prototype`. -/
def PlainType (t : JSVal) : Prop :=
  toPropertyKey t ∉ objectPrototypeKeys

instance plainType_decidable (t : JSVal) : Decidable (PlainType t) :=
  inferInstanceAs (Decidable (toPropertyKey t ∉ objectPrototypeKeys))

/-- The words of the specification for a value that is kept: present (neither
`undefined` nor `null`) and non-empty (not the empty string). -/
def PresentNonEmpty (x : JSVal) : Prop :=
  x ≠ .undefined ∧ x ≠ .null ∧ x ≠ .str ""

/-- A value that the row replaces by the sentinel: `undefined`, `null`, the
empty string, the number `0` and `false`. -/
def Blank (x : JSVal) : Prop :=
  x = .undefined ∨ x = .null ∨ x = .str "" ∨ x = .num 0 ∨ x = .bool false

/-- The defaulting rule of one row field: the record's value `x` unless it is
blank, the sentinel when it is, and never a blank cell. -/
def Defaulted (x : JSVal) (sentinel : String) (out : JSVal) : Prop :=
  (¬ Blank x → out = x) ∧ (Blank x → out = .str sentinel) ∧ ¬ Blank out

/-- A record with AIS data and a value of every kind: strings, an empty
string, the number 0, `false`, `null` and missing properties. -/
def sampleVessel : TrackedVessel where
  AIS := some ⟨.str "9074729", .str "", .undefined, .str "ROTTERDAM"⟩
  GeofenceStatus := .str "Inside"
  GeofenceType := .str "Berth"
  CaseId := .num 0
  Info1 := .bool false
  ETATime := .null
  ETADate := .undefined
  Agent := .num 7
  AgentName := .str "ACME"

/-- Three records: an Anchorage vessel, a vessel whose geofence type is the
string "constructor", and the Berth vessel with IMO "9074729". -/
def inheritedNameInput : List TrackedVessel :=
  [vesselOfType "Anchorage", vesselOfType "constructor",
   { vesselOfType "Berth" with
     AIS := some ⟨.str "9074729", .undefined, .undefined, .undefined⟩ }]

/-! ## `handleRowClick` -/

/-- Code points removed by `String.prototype.trim`: WhiteSpace and
LineTerminator of ECMA-262. -/
def trimCodePoints : List Nat :=
  [0x09, 0x0A, 0x0B, 0x0C, 0x0D, 0x20, 0xA0, 0x1680,
   0x2000, 0x2001, 0x2002, 0x2003, 0x2004, 0x2005, 0x2006, 0x2007, 0x2008,
   0x2009, 0x200A, 0x2028, 0x2029, 0x202F, 0x205F, 0x3000, 0xFEFF]

/-- Whether `trim` strips the character. -/
def isTrimChar (c : Char) : Bool :=
  trimCodePoints.contains c.toNat

/-- The method `String.prototype.trim`. -/
def jsTrim (s : String) : String :=
  ⟨((s.data.dropWhile isTrimChar).reverse.dropWhile isTrimChar).reverse⟩

/-- A vessel of the `vessels` prop: an object whose `name` property may hold
any scalar or be missing (`undefined`); `details` are its other properties. -/
structure Vessel where
  name : JSVal
  details : List (String × JSVal)
  deriving DecidableEq

/-- What one call of `handleRowClick` does. -/
inductive ClickResult where
  | typeError
  | warnEmptyName
  | onRowClick (selectedVesselData : Vessel)
  | warnNotFound (selectedVesselName : String)
  deriving DecidableEq

/-- The call `v.trim()`: a string is trimmed; on `undefined` or `null` the
property read throws a TypeError, and on a number or a boolean `trim` is
`undefined`, so the call throws a TypeError (`none`). -/
def trimMethod : JSVal → Option String
  | .str s => some (jsTrim s)
  | _ => none

/-- How `vessels.find(vessel => vessel.name.trim() === selectedVesselName)` ends. -/
inductive FindResult where
  | threw
  | found (vessel : Vessel)
  | notFound
  deriving DecidableEq

/-- The call `vessels.find(vessel => vessel.name.trim() === selectedVesselName)`:
the callback runs on the elements in order until it returns true; a TypeError
thrown by the callback ends the search. -/
def findVessel (selectedVesselName : String) : List Vessel → FindResult
  | [] => .notFound
  | vessel :: rest =>
    match trimMethod vessel.name with
    | none => .threw
    | some trimmed =>
      if trimmed = selectedVesselName then .found vessel
      else findVessel selectedVesselName rest

/-- The source function `handleRowClick`, closed over the `vessels` prop. The
result records the one effect of the call: a warning, the call of
`onRowClick` with its argument, or an uncaught TypeError. -/
def handleRowClick (vessels : List Vessel) (rowData : VesselRow) : ClickResult :=
  match (if truthy rowData.AISName then trimMethod rowData.AISName else some "") with
  | none => .typeError
  | some selectedVesselName =>
    if selectedVesselName = "" then .warnEmptyName
    else
      match findVessel selectedVesselName vessels with
      | .threw => .typeError
      | .found selectedVesselData => .onRowClick selectedVesselData
      | .notFound => .warnNotFound selectedVesselName

/-- A displayed row with the given `AISName` (other cells hold their sentinel). -/
def rowNamed (n : JSVal) : VesselRow where
  IMO := .str "N/A"
  AISName := n
  GeofenceStatus := .str "-"
  ETA := .str "N/A"
  Destination := .str "N/A"
  GeofenceType := .str "-"
  CaseId := .str "-"
  Info1 := .str "-"
  ETATime := .str "-"
  ETADate := .str "-"
  Agent := .str "N/A"
  AgentName := .str "N/A"

/-! ## Component state -/

/-- The two `useState` cells of the component. -/
structure ComponentState where
  dataSource : List VesselRow
  trackedVessels : List TrackedVessel
  deriving DecidableEq

/-- Both cells start as `[]`. -/
def initialState : ComponentState := ⟨[], []⟩

/-- How the `axios.get` of the mount effect settles. -/
inductive FetchOutcome where
  | resolved (data : List TrackedVessel)
  | rejected

/-- The state after the fetch settles and the effects have run: on success
`setTrackedVessels(data)`, then the second effect formats the list when
`trackedVessels.length > 0`; on failure the `catch` only logs. -/
def afterFetch (s : ComponentState) : FetchOutcome → ComponentState
  | .resolved data =>
    { trackedVessels := data
      dataSource := if data.length > 0 then formatEntries data else s.dataSource }
  | .rejected => s

/-- The state of a mounted component once its single fetch has settled. -/
def mounted (o : FetchOutcome) : ComponentState :=
  afterFetch initialState o

/-- What the component returns from its render. -/
inductive View where
  | emptyMessage (text : String)
  | grid (data : List VesselRow)
  deriving DecidableEq

/-- The `return` of the component: `dataSource.length === 0 ? <p>...</p> : <MaterialReactTable .../>`. -/
def render (s : ComponentState) : View :=
  if s.dataSource.length = 0 then .emptyMessage "No vessels data to display"
  else .grid s.dataSource

end Vesseleighthours

/-! ## `CustomFieldSchema` -/

namespace CustomField

/-- The `type` option of a schema path. -/
inductive SchemaType where
  | String
  deriving DecidableEq

/-- The options object of one schema path, `{ type: String, required: true }`. -/
structure PathOptions where
  type : SchemaType
  required : Bool
  deriving DecidableEq

/-- The subdocument schema of one `customData` element. -/
structure EntrySchema where
  imoNumber : PathOptions
  data : PathOptions
  deriving DecidableEq

/-- The shape of the schema definition passed to `new mongoose.Schema`. -/
structure Schema where
  header : PathOptions
  headertype : PathOptions
  customData : EntrySchema
  timestamps : Bool
  deriving DecidableEq

/-- The schema declared in `models/CustomField.js`. -/
def CustomFieldSchema : Schema where
  header := { type := .String, required := true }
  headertype := { type := .String, required := true }
  customData :=
    { imoNumber := { type := .String, required := true }
      data := { type := .String, required := true } }
  timestamps := true

/-- One element of `customData` after casting: a string path holds a string
or nothing (`none` is `undefined` or `null`). -/
structure Entry where
  imoNumber : Option String
  data : Option String
  deriving DecidableEq

/-- A CustomField document after casting. -/
structure Document where
  header : Option String
  headertype : Option String
  customData : List Entry
  deriving DecidableEq

/-- Modelled from the spec: the validation engine of the document library
(Mongoose, a dependency that is not part of the sources). The `required`
validator of a string path passes when the value is a string of non-zero
length; a path that is not required always passes. -/
def checkRequired (o : PathOptions) (v : Option String) : Bool :=
  !o.required ||
    match v with
    | some s => s.length != 0
    | none => false

/-- Modelled from the spec: the error paths of one `customData` element at
index `i` (the validation engine is not part of the sources). -/
def entryErrors (s : EntrySchema) (i : Nat) (e : Entry) : List String :=
  (if checkRequired s.imoNumber e.imoNumber then []
    else ["customData." ++ toString i ++ ".imoNumber"]) ++
  (if checkRequired s.data e.data then []
    else ["customData." ++ toString i ++ ".data"])

/-- Modelled from the spec: the errors of all `customData` elements, from
index `i` on (the validation engine is not part of the sources). -/
def entriesErrors (s : EntrySchema) : Nat → List Entry → List String
  | _, [] => []
  | i, e :: es => entryErrors s i e ++ entriesErrors s (i + 1) es

/-- Modelled from the spec: document validation, which is absent from the
sources. It returns the paths of the ValidationError; the write is accepted
exactly when there is none, and rejected as a whole otherwise. -/
def validate (s : Schema) (d : Document) : List String :=
  (if checkRequired s.header d.header then [] else ["header"]) ++
  (if checkRequired s.headertype d.headertype then [] else ["headertype"]) ++
  entriesErrors s.customData 0 d.customData

/-- Whether the write of the document passes validation. -/
def passes (s : Schema) (d : Document) : Prop :=
  validate s d = []

instance passes_decidable (s : Schema) (d : Document) : Decidable (passes s d) :=
  inferInstanceAs (Decidable (validate s d = []))

/-- A path that holds a non-empty string. -/
def NonEmptyString (v : Option String) : Prop :=
  ∃ s, v = some s ∧ s ≠ ""

end CustomField

/-! ## Lemmas on the embedding -/

namespace Vesseleighthours

theorem blank_iff_not_truthy (x : JSVal) : Blank x ↔ truthy x = false := by
  cases x with
  | undefined => simp [Blank, truthy]
  | null => simp [Blank, truthy]
  | bool b => cases b <;> simp [Blank, truthy]
  | num n => simp [Blank, truthy]
  | str s => simp [Blank, truthy]

theorem jsOr_of_truthy (x d : JSVal) (hx : truthy x = true) : jsOr x d = x := by
  unfold jsOr; rw [if_pos hx]

theorem jsOr_of_falsy (x d : JSVal) (hx : truthy x = false) : jsOr x d = d := by
  unfold jsOr; rw [if_neg (by simp [hx])]

theorem truthy_str (s : String) (h : s ≠ "") : truthy (.str s) = true := by
  simp [truthy, h]

theorem truthy_jsOr (x : JSVal) (sentinel : String) (h : sentinel ≠ "") :
    truthy (jsOr x (.str sentinel)) = true := by
  cases hx : truthy x
  · rw [jsOr_of_falsy _ _ hx]; exact truthy_str _ h
  · rw [jsOr_of_truthy _ _ hx]; exact hx

theorem defaulted_jsOr (x : JSVal) (sentinel : String) (h : sentinel ≠ "") :
    Defaulted x sentinel (jsOr x (.str sentinel)) := by
  refine ⟨fun hx => ?_, fun hx => ?_, ?_⟩
  · rw [blank_iff_not_truthy] at hx
    exact jsOr_of_truthy _ _ (by simpa using hx)
  · exact jsOr_of_falsy _ _ ((blank_iff_not_truthy x).1 hx)
  · rw [blank_iff_not_truthy, truthy_jsOr x sentinel h]
    simp

theorem jsOr_idem (x : JSVal) (sentinel : String) (h : sentinel ≠ "") :
    jsOr (jsOr x (.str sentinel)) (.str sentinel) = jsOr x (.str sentinel) :=
  jsOr_of_truthy _ _ (truthy_jsOr x sentinel h)

/-! ### The comparator -/

theorem orderOperand_of_plain (t : JSVal) (h : PlainType t) :
    orderOperand t = .int (geofenceRank t) := by
  unfold PlainType at h
  unfold orderOperand orderGet geofenceRank
  generalize toPropertyKey t = k at h ⊢
  by_cases h1 : k = "Berth"
  · subst h1; rfl
  by_cases h2 : k = "Terminal"
  · subst h2; rfl
  by_cases h3 : k = "Anchorage"
  · subst h3; rfl
  by_cases h4 : k = "N/A"
  · subst h4; rfl
  have e1 : (k == "Berth") = false := by simp [h1]
  have e2 : (k == "Terminal") = false := by simp [h2]
  have e3 : (k == "Anchorage") = false := by simp [h3]
  have e4 : (k == "N/A") = false := by simp [h4]
  simp only [orderOwn, List.lookup, e1, e2, e3, e4, if_neg h, if_neg h1, if_neg h2, if_neg h3,
    if_neg h4, orDefault, toNumber]

theorem orderOperand_of_inherited (t : JSVal) (h : ¬ PlainType t) :
    orderOperand t = .nan := by
  unfold PlainType at h
  unfold orderOperand
  generalize toPropertyKey t = k at h ⊢
  simp only [objectPrototypeKeys, List.mem_cons, List.mem_singleton, not_not, List.mem_nil_iff,
    or_false] at h
  rcases h with h | h | h | h | h | h | h | h | h | h | h | h <;> subst h <;> rfl

theorem orderOperand_cases (t : JSVal) :
    orderOperand t = .nan ∨ orderOperand t = .int (geofenceRank t) := by
  by_cases h : PlainType t
  · exact Or.inr (orderOperand_of_plain t h)
  · exact Or.inl (orderOperand_of_inherited t h)

/-- On geofence types that are not names inherited from `Object.prototype` the
comparator is the difference of the ranks. -/
theorem sortGeofenceType_of_plain (a b : VesselRow) (ha : PlainType a.GeofenceType)
    (hb : PlainType b.GeofenceType) :
    sortGeofenceType a b =
      .int (geofenceRank a.GeofenceType - geofenceRank b.GeofenceType) := by
  unfold sortGeofenceType
  rw [orderOperand_of_plain _ ha, orderOperand_of_plain _ hb]
  rfl

theorem compare_of_plain (a b : VesselRow) (ha : PlainType a.GeofenceType)
    (hb : PlainType b.GeofenceType) :
    compareArrayElements sortGeofenceType a b =
      geofenceRank a.GeofenceType - geofenceRank b.GeofenceType := by
  unfold compareArrayElements
  rw [sortGeofenceType_of_plain a b ha hb]

/-- What the sort reads from the comparator: 0 when one of the two types is an
inherited name (NaN), the difference of the ranks otherwise. -/
theorem compare_cases (a b : VesselRow) :
    compareArrayElements sortGeofenceType a b = 0 ∨
      compareArrayElements sortGeofenceType a b =
        geofenceRank a.GeofenceType - geofenceRank b.GeofenceType := by
  unfold compareArrayElements sortGeofenceType
  rcases orderOperand_cases a.GeofenceType with ha | ha <;>
    rcases orderOperand_cases b.GeofenceType with hb | hb <;>
    rw [ha, hb] <;> simp [jsSub]

theorem compare_anti (x y : VesselRow)
    (h : compareArrayElements sortGeofenceType x y < 0) :
    0 ≤ compareArrayElements sortGeofenceType y x := by
  rcases compare_cases x y with hxy | hxy <;> rcases compare_cases y x with hyx | hyx <;>
    omega

/-- Rows in rank order may follow one another for the run scan, whatever their
types. -/
theorem runLE_of_rankLE (a b : VesselRow) (h : rankLE a b) :
    runLE sortGeofenceType a b := by
  unfold runLE
  unfold rankLE at h
  rcases compare_cases b a with hba | hba <;> omega

theorem runLE_congr (a b c d : VesselRow) (hac : a.GeofenceType = c.GeofenceType)
    (hbd : b.GeofenceType = d.GeofenceType) (h : runLE sortGeofenceType a b) :
    runLE sortGeofenceType c d := by
  unfold runLE compareArrayElements sortGeofenceType at h ⊢
  rw [← hac, ← hbd]; exact h

theorem rankCompare_key :
    KeyComparator rankCompare (fun r => geofenceRank r.GeofenceType) :=
  fun _ _ => rfl

/-! ### The engine sort: permutation and runs -/

theorem splitRun_append {α : Type} (comparefn : α → α → JSNumber) (d : Bool) :
    ∀ (p : α) (l : List α), (splitRun comparefn d p l).1 ++ (splitRun comparefn d p l).2 = l
  | _, [] => rfl
  | p, c :: rest => by
    unfold splitRun
    split
    · rfl
    · simp [splitRun_append comparefn d c rest]

theorem countAndMakeRun_perm {α : Type} (comparefn : α → α → JSNumber) :
    ∀ xs : List α, ((countAndMakeRun comparefn xs).1 ++ (countAndMakeRun comparefn xs).2).Perm xs
  | [] => List.Perm.refl _
  | [_] => List.Perm.refl _
  | a :: b :: rest => by
    by_cases hd : compareArrayElements comparefn b a < 0
    · have h := splitRun_append comparefn true b rest
      simp only [countAndMakeRun, if_pos hd]
      refine ((List.reverse_perm _).append_right _).trans ?_
      simp only [List.cons_append, h]
      exact List.Perm.refl _
    · have h := splitRun_append comparefn false b rest
      simp only [countAndMakeRun, if_neg hd, List.cons_append, h]
      exact List.Perm.refl _

theorem binaryInsert_perm {α : Type} (comparefn : α → α → JSNumber) (sorted : List α) (pivot : α) :
    (binaryInsert comparefn sorted pivot).Perm (pivot :: sorted) := by
  unfold binaryInsert
  refine List.perm_middle.trans ?_
  rw [List.take_append_drop]

theorem binaryInsertionSort_perm {α : Type} (comparefn : α → α → JSNumber) :
    ∀ (rest sorted : List α), (binaryInsertionSort comparefn sorted rest).Perm (sorted ++ rest)
  | [], sorted => by simp [binaryInsertionSort]
  | p :: rest, sorted => by
    have ih := binaryInsertionSort_perm comparefn rest (binaryInsert comparefn sorted p)
    unfold binaryInsertionSort at ih ⊢
    rw [List.foldl_cons]
    refine ih.trans ?_
    refine ((binaryInsert_perm comparefn sorted p).append_right rest).trans ?_
    exact List.perm_middle.symm

theorem arraySort_perm {α : Type} (comparefn : α → α → JSNumber) (xs : List α) :
    (arraySort comparefn xs).Perm xs :=
  (binaryInsertionSort_perm comparefn _ _).trans (countAndMakeRun_perm comparefn xs)


theorem splitRun_ascending_chain {α : Type} (comparefn : α → α → JSNumber) :
    ∀ (p : α) (l : List α),
      (p :: (splitRun comparefn false p l).1).Chain' (runLE comparefn)
  | p, [] => List.chain'_singleton p
  | p, c :: rest => by
    by_cases hb : runBreaks false (compareArrayElements comparefn c p) = true
    · simp only [splitRun, if_pos hb]
      exact List.chain'_singleton p
    · simp only [splitRun, if_neg hb]
      refine List.chain'_cons.2 ⟨?_, splitRun_ascending_chain comparefn c rest⟩
      simp only [runBreaks, Bool.false_eq_true, if_false, decide_eq_true_eq, not_lt] at hb
      exact hb

theorem splitRun_descending_chain {α : Type} (comparefn : α → α → JSNumber) :
    ∀ (p : α) (l : List α),
      (p :: (splitRun comparefn true p l).1).Chain'
        (fun x y => compareArrayElements comparefn y x < 0)
  | p, [] => List.chain'_singleton p
  | p, c :: rest => by
    by_cases hb : runBreaks true (compareArrayElements comparefn c p) = true
    · simp only [splitRun, if_pos hb]
      exact List.chain'_singleton p
    · simp only [splitRun, if_neg hb]
      refine List.chain'_cons.2 ⟨?_, splitRun_descending_chain comparefn c rest⟩
      simp only [runBreaks, if_true, decide_eq_true_eq, not_le] at hb
      exact hb

theorem countAndMakeRun_chain {α : Type} (comparefn : α → α → JSNumber)
    (hanti : ∀ x y, compareArrayElements comparefn x y < 0 →
      0 ≤ compareArrayElements comparefn y x) :
    ∀ xs : List α, (countAndMakeRun comparefn xs).1.Chain' (runLE comparefn)
  | [] => List.chain'_nil
  | [a] => List.chain'_singleton a
  | a :: b :: rest => by
    by_cases hd : compareArrayElements comparefn b a < 0
    · simp only [countAndMakeRun, if_pos hd]
      rw [List.chain'_reverse]
      have h : (a :: b :: (splitRun comparefn true b rest).1).Chain'
          (fun x y => compareArrayElements comparefn y x < 0) :=
        List.chain'_cons.2 ⟨hd, splitRun_descending_chain comparefn b rest⟩
      exact h.imp (fun x y hxy => hanti y x hxy)
    · simp only [countAndMakeRun, if_neg hd]
      exact List.chain'_cons.2 ⟨not_lt.1 hd, splitRun_ascending_chain comparefn b rest⟩

theorem findInsertionPoint_spec {α : Type} (comparefn : α → α → JSNumber) (pivot : α)
    (sorted : List α) :
    ∀ (fuel left right : Nat), right - left ≤ fuel → left ≤ right → right ≤ sorted.length →
      (∀ x ∈ (sorted.take left).getLast?, 0 ≤ compareArrayElements comparefn pivot x) →
      (∀ y ∈ (sorted.drop right).head?, compareArrayElements comparefn pivot y < 0) →
      (∀ x ∈ (sorted.take (findInsertionPoint comparefn pivot sorted fuel left right)).getLast?,
          0 ≤ compareArrayElements comparefn pivot x) ∧
        (∀ y ∈ (sorted.drop (findInsertionPoint comparefn pivot sorted fuel left right)).head?,
          compareArrayElements comparefn pivot y < 0)
  | 0, left, right, hf, hlr, _, hL, hR => by
    have : left = right := by omega
    subst this
    exact ⟨hL, hR⟩
  | fuel + 1, left, right, hf, hlr, hlen, hL, hR => by
    by_cases hlt : left < right
    · have hmid : left + (right - left) / 2 < sorted.length := by omega
      obtain ⟨m, hm⟩ : ∃ m, sorted[left + (right - left) / 2]? = some m :=
        ⟨_, List.getElem?_eq_getElem hmid⟩
      by_cases hc : compareArrayElements comparefn pivot m < 0
      · simp only [findInsertionPoint, if_pos hlt, hm, if_pos hc]
        refine findInsertionPoint_spec comparefn pivot sorted fuel left _ (by omega) (by omega)
          (by omega) hL ?_
        intro y hy
        rw [List.head?_drop, hm] at hy
        cases hy
        exact hc
      · simp only [findInsertionPoint, if_pos hlt, hm, if_neg hc]
        refine findInsertionPoint_spec comparefn pivot sorted fuel _ right (by omega) (by omega)
          hlen ?_ hR
        intro x hx
        rw [List.take_succ, hm, Option.toList_some, List.getLast?_concat] at hx
        cases hx
        exact not_lt.1 hc
    · have : left = right := by omega
      subst this
      simp only [findInsertionPoint, if_neg hlt]
      exact ⟨hL, hR⟩

/-- The fuel of the search, the length of the sorted part, is enough: more
fuel gives the same insertion point. -/
theorem findInsertionPoint_fuel {α : Type} (comparefn : α → α → JSNumber) (pivot : α)
    (sorted : List α) :
    ∀ (fuel left right extra : Nat), right - left ≤ fuel →
      findInsertionPoint comparefn pivot sorted (fuel + extra) left right =
        findInsertionPoint comparefn pivot sorted fuel left right
  | 0, left, right, extra, hf => by
    cases extra with
    | zero => rfl
    | succ k =>
      have hlt : ¬ left < right := by omega
      simp only [Nat.zero_add, findInsertionPoint, if_neg hlt]
  | fuel + 1, left, right, extra, hf => by
    have e : fuel + 1 + extra = (fuel + extra) + 1 := by omega
    rw [e]
    by_cases hlt : left < right
    · cases hm : sorted[left + (right - left) / 2]? with
      | none => simp only [findInsertionPoint, if_pos hlt, hm]
      | some m =>
        simp only [findInsertionPoint, if_pos hlt, hm]
        rw [findInsertionPoint_fuel comparefn pivot sorted fuel left _ extra (by omega),
          findInsertionPoint_fuel comparefn pivot sorted fuel _ right extra (by omega)]
    · simp only [findInsertionPoint, if_neg hlt]

theorem binaryInsert_chain {α : Type} (comparefn : α → α → JSNumber)
    (hanti : ∀ x y, compareArrayElements comparefn x y < 0 →
      0 ≤ compareArrayElements comparefn y x)
    (sorted : List α) (pivot : α) (h : sorted.Chain' (runLE comparefn)) :
    (binaryInsert comparefn sorted pivot).Chain' (runLE comparefn) := by
  obtain ⟨hL, hR⟩ := findInsertionPoint_spec comparefn pivot sorted sorted.length 0 sorted.length
    (by omega) (by omega) (le_refl _) (by simp) (by simp)
  unfold binaryInsert
  rw [List.chain'_split]
  refine ⟨List.chain'_append.2 ⟨h.take _, List.chain'_singleton pivot, ?_⟩, ?_⟩
  · intro x hx y hy
    simp only [List.head?_cons, Option.mem_def, Option.some.injEq] at hy
    subst hy
    exact hL x hx
  · exact (h.drop _).cons' (fun y hy => hanti pivot y (hR y hy))

theorem binaryInsertionSort_chain {α : Type} (comparefn : α → α → JSNumber)
    (hanti : ∀ x y, compareArrayElements comparefn x y < 0 →
      0 ≤ compareArrayElements comparefn y x) :
    ∀ (rest sorted : List α), sorted.Chain' (runLE comparefn) →
      (binaryInsertionSort comparefn sorted rest).Chain' (runLE comparefn)
  | [], _, h => h
  | p :: rest, sorted, h => by
    have ih := binaryInsertionSort_chain comparefn hanti rest _
      (binaryInsert_chain comparefn hanti sorted p h)
    unfold binaryInsertionSort at ih ⊢
    rw [List.foldl_cons]
    exact ih

theorem arraySort_chain {α : Type} (comparefn : α → α → JSNumber)
    (hanti : ∀ x y, compareArrayElements comparefn x y < 0 →
      0 ≤ compareArrayElements comparefn y x) (xs : List α) :
    (arraySort comparefn xs).Chain' (runLE comparefn) :=
  binaryInsertionSort_chain comparefn hanti _ _ (countAndMakeRun_chain comparefn hanti xs)

theorem splitRun_of_chain {α : Type} (comparefn : α → α → JSNumber) :
    ∀ (p : α) (l : List α), (p :: l).Chain' (runLE comparefn) →
      splitRun comparefn false p l = (l, [])
  | _, [], _ => rfl
  | p, c :: rest, h => by
    have hpc : 0 ≤ compareArrayElements comparefn c p := h.rel_head
    have hb : ¬ runBreaks false (compareArrayElements comparefn c p) = true := by
      simp only [runBreaks, Bool.false_eq_true, if_false, decide_eq_true_eq, not_lt]
      exact hpc
    simp only [splitRun, if_neg hb, splitRun_of_chain comparefn c rest h.tail]

theorem arraySort_eq_of_chain {α : Type} (comparefn : α → α → JSNumber) :
    ∀ xs : List α, xs.Chain' (runLE comparefn) → arraySort comparefn xs = xs
  | [], _ => rfl
  | [_], _ => rfl
  | a :: b :: rest, h => by
    have hab : 0 ≤ compareArrayElements comparefn b a := h.rel_head
    have hd : ¬ compareArrayElements comparefn b a < 0 := not_lt.2 hab
    simp only [arraySort, countAndMakeRun, if_neg hd,
      splitRun_of_chain comparefn b rest h.tail, binaryInsertionSort, List.foldl_nil]


/-! ### The engine sort with a consistent comparator -/

theorem keyComparator_anti {α : Type} {comparefn : α → α → JSNumber} {k : α → Int}
    (hk : KeyComparator comparefn k) (x y : α)
    (h : compareArrayElements comparefn x y < 0) : 0 ≤ compareArrayElements comparefn y x := by
  rw [hk x y] at h; rw [hk y x]; omega

theorem sorted_of_chain {α : Type} {comparefn : α → α → JSNumber} {k : α → Int}
    (hk : KeyComparator comparefn k) {l : List α} (h : l.Chain' (runLE comparefn)) :
    l.Sorted (keyLE k) := by
  have h2 : l.Chain' (keyLE k) := h.imp (fun x y (hxy : 0 ≤ compareArrayElements comparefn y x) => by
    rw [hk y x] at hxy; unfold keyLE; omega)
  exact List.chain'_iff_pairwise.1 h2

theorem chain_of_sorted {α : Type} {comparefn : α → α → JSNumber} {k : α → Int}
    (hk : KeyComparator comparefn k) {l : List α} (h : l.Sorted (keyLE k)) :
    l.Chain' (runLE comparefn) :=
  (List.Pairwise.chain' h).imp (fun x y (hxy : k x ≤ k y) => by
    unfold runLE; rw [hk y x]; omega)

theorem arraySort_sorted {α : Type} {comparefn : α → α → JSNumber} {k : α → Int}
    (hk : KeyComparator comparefn k) (xs : List α) :
    (arraySort comparefn xs).Sorted (keyLE k) :=
  sorted_of_chain hk (arraySort_chain comparefn (keyComparator_anti hk) xs)

theorem binaryInsert_filter {α : Type} {comparefn : α → α → JSNumber} {k : α → Int}
    (hk : KeyComparator comparefn k) (sorted : List α) (pivot : α)
    (h : sorted.Sorted (keyLE k)) (v : Int) :
    (binaryInsert comparefn sorted pivot).filter (fun x => decide (k x = v)) =
      (sorted ++ [pivot]).filter (fun x => decide (k x = v)) := by
  obtain ⟨_, hR⟩ := findInsertionPoint_spec comparefn pivot sorted sorted.length 0 sorted.length
    (by omega) (by omega) (le_refl _) (by simp) (by simp)
  unfold binaryInsert
  generalize findInsertionPoint comparefn pivot sorted sorted.length 0 sorted.length = j at hR
  have hdrop : ∀ y ∈ sorted.drop j, k pivot < k y := by
    have hs : (sorted.drop j).Sorted (keyLE k) := List.Pairwise.sublist (List.drop_sublist j sorted) h
    intro y hy
    cases hd : sorted.drop j with
    | nil => rw [hd] at hy; cases hy
    | cons a t =>
      rw [hd] at hy hs hR
      have ha : k pivot < k a := by
        have := hR a (by simp)
        rw [hk pivot a] at this; omega
      rcases List.mem_cons.1 hy with rfl | hyt
      · exact ha
      · have : k a ≤ k y := List.rel_of_sorted_cons hs y hyt
        omega
  conv_rhs => rw [← List.take_append_drop j sorted]
  simp only [List.filter_append, List.filter_cons, List.filter_nil, List.append_assoc]
  by_cases hv : k pivot = v
  · have hnil : (sorted.drop j).filter (fun x => decide (k x = v)) = [] := by
      rw [List.filter_eq_nil_iff]
      intro y hy
      have := hdrop y hy
      simp only [decide_eq_true_eq]
      omega
    simp [hv, hnil]
  · simp [hv]

theorem binaryInsertionSort_filter {α : Type} {comparefn : α → α → JSNumber} {k : α → Int}
    (hk : KeyComparator comparefn k) (v : Int) :
    ∀ (rest sorted : List α), sorted.Sorted (keyLE k) →
      (binaryInsertionSort comparefn sorted rest).filter (fun x => decide (k x = v)) =
        (sorted ++ rest).filter (fun x => decide (k x = v))
  | [], sorted, _ => by simp [binaryInsertionSort]
  | p :: rest, sorted, h => by
    have hs : (binaryInsert comparefn sorted p).Sorted (keyLE k) :=
      sorted_of_chain hk (binaryInsert_chain comparefn (keyComparator_anti hk) sorted p (chain_of_sorted hk h))
    have ih := binaryInsertionSort_filter hk v rest _ hs
    unfold binaryInsertionSort at ih ⊢
    rw [List.foldl_cons, ih, List.filter_append, binaryInsert_filter hk sorted p h v]
    simp only [List.filter_append, List.append_assoc, List.filter_cons, List.filter_nil]
    split <;> simp

theorem filter_reverse_of_descending {α : Type} {k : α → Int} (v : Int) (l : List α)
    (h : l.Chain' (fun x y => k y < k x)) :
    l.reverse.filter (fun x => decide (k x = v)) = l.filter (fun x => decide (k x = v)) := by
  have htrans : IsTrans α (fun x y => k y < k x) :=
    ⟨fun x y z (h1 : k y < k x) (h2 : k z < k y) => lt_trans h2 h1⟩
  have hp : l.Pairwise (fun x y => k y < k x) := List.chain'_iff_pairwise.1 h
  have hf := hp.filter (fun x => decide (k x = v))
  rw [List.filter_reverse]
  cases hl : l.filter (fun x => decide (k x = v)) with
  | nil => rfl
  | cons a t =>
    cases t with
    | nil => rfl
    | cons b t' =>
      exfalso
      rw [hl] at hf
      have hab : k b < k a := (List.pairwise_cons.1 hf).1 b (by simp)
      have ha : a ∈ l.filter (fun x => decide (k x = v)) := by rw [hl]; simp
      have hb : b ∈ l.filter (fun x => decide (k x = v)) := by rw [hl]; simp
      simp only [List.mem_filter, decide_eq_true_eq] at ha hb
      omega

theorem countAndMakeRun_filter {α : Type} {comparefn : α → α → JSNumber} {k : α → Int}
    (hk : KeyComparator comparefn k) (v : Int) :
    ∀ xs : List α,
      ((countAndMakeRun comparefn xs).1 ++ (countAndMakeRun comparefn xs).2).filter
          (fun x => decide (k x = v)) = xs.filter (fun x => decide (k x = v))
  | [] => rfl
  | [_] => rfl
  | a :: b :: rest => by
    by_cases hd : compareArrayElements comparefn b a < 0
    · have happ := splitRun_append comparefn true b rest
      have hchain : (a :: b :: (splitRun comparefn true b rest).1).Chain'
          (fun x y => k y < k x) := by
        have h : (a :: b :: (splitRun comparefn true b rest).1).Chain'
            (fun x y => compareArrayElements comparefn y x < 0) :=
          List.chain'_cons.2 ⟨hd, splitRun_descending_chain comparefn b rest⟩
        exact h.imp (fun x y hxy => by rw [hk y x] at hxy; omega)
      simp only [countAndMakeRun, if_pos hd]
      rw [List.filter_append, filter_reverse_of_descending v _ hchain, ← List.filter_append]
      simp only [List.cons_append, happ]
    · have happ := splitRun_append comparefn false b rest
      simp only [countAndMakeRun, if_neg hd, List.cons_append, happ]

theorem arraySort_filter {α : Type} {comparefn : α → α → JSNumber} {k : α → Int}
    (hk : KeyComparator comparefn k) (v : Int) (xs : List α) :
    (arraySort comparefn xs).filter (fun x => decide (k x = v)) =
      xs.filter (fun x => decide (k x = v)) := by
  unfold arraySort
  rw [binaryInsertionSort_filter hk v _ _
    (sorted_of_chain hk (countAndMakeRun_chain comparefn (keyComparator_anti hk) xs))]
  exact countAndMakeRun_filter hk v xs

theorem insertionSort_filter {α : Type} (k : α → Int) (v : Int) (xs : List α) :
    (xs.insertionSort (keyLE k)).filter (fun x => decide (k x = v)) =
      xs.filter (fun x => decide (k x = v)) := by
  have hpw : (xs.filter (fun x => decide (k x = v))).Pairwise (keyLE k) := by
    rw [List.pairwise_iff_forall_sublist]
    intro a b hab
    have ha : a ∈ xs.filter (fun x => decide (k x = v)) := hab.subset (by simp)
    have hb : b ∈ xs.filter (fun x => decide (k x = v)) := hab.subset (by simp)
    simp only [List.mem_filter, decide_eq_true_eq] at ha hb
    unfold keyLE; omega
  have hsub : (xs.filter (fun x => decide (k x = v))).Sublist (xs.insertionSort (keyLE k)) :=
    List.sublist_insertionSort hpw (List.filter_sublist xs)
  have hsub2 := hsub.filter (fun x => decide (k x = v))
  rw [List.filter_filter] at hsub2
  simp only [Bool.and_self] at hsub2
  have hlen := ((List.perm_insertionSort (keyLE k) xs).filter (fun x => decide (k x = v))).length_eq
  exact (hsub2.eq_of_length hlen.symm).symm

/-- A list sorted by a key is determined by its classes of equal key. -/
theorem eq_of_sorted_of_filter {α : Type} (k : α → Int) :
    ∀ (l₁ l₂ : List α), l₁.Sorted (keyLE k) → l₂.Sorted (keyLE k) →
      (∀ v, l₁.filter (fun x => decide (k x = v)) = l₂.filter (fun x => decide (k x = v))) →
      l₁ = l₂
  | [], l₂, _, _, h => by
    cases l₂ with
    | nil => rfl
    | cons b t =>
      have := h (k b)
      simp at this
  | a :: t₁, [], _, _, h => by
    have := h (k a)
    simp at this
  | a :: t₁, b :: t₂, h₁, h₂, h => by
    have hab : k a = k b := by
      have ha : a ∈ (b :: t₂) := by
        have : a ∈ (b :: t₂).filter (fun x => decide (k x = k a)) := by
          rw [← h (k a)]; simp
        exact (List.mem_filter.1 this).1
      have hb : b ∈ (a :: t₁) := by
        have : b ∈ (a :: t₁).filter (fun x => decide (k x = k b)) := by
          rw [h (k b)]; simp
        exact (List.mem_filter.1 this).1
      have h1 : k b ≤ k a := by
        rcases List.mem_cons.1 ha with rfl | ha'
        · exact le_refl _
        · exact List.rel_of_sorted_cons h₂ a ha'
      have h2 : k a ≤ k b := by
        rcases List.mem_cons.1 hb with rfl | hb'
        · exact le_refl _
        · exact List.rel_of_sorted_cons h₁ b hb'
      omega
    have hhead := h (k a)
    simp only [List.filter_cons, decide_True, if_true, hab] at hhead
    simp only [← hab, decide_True, if_true] at hhead
    obtain ⟨rfl, _⟩ := List.cons.inj hhead
    congr 1
    refine eq_of_sorted_of_filter k t₁ t₂ h₁.of_cons h₂.of_cons (fun v => ?_)
    have hv := h v
    simp only [List.filter_cons] at hv
    by_cases hva : k a = v
    · simp only [hva, decide_True, if_true] at hv
      exact (List.cons.inj hv).2
    · simpa [hva] using hv

/-- With a comparator that is the difference of a key, the sort is the stable
sort by the key. -/
theorem arraySort_eq_insertionSort {α : Type} {comparefn : α → α → JSNumber} {k : α → Int}
    (hk : KeyComparator comparefn k) (xs : List α) :
    arraySort comparefn xs = xs.insertionSort (keyLE k) :=
  eq_of_sorted_of_filter k _ _ (arraySort_sorted hk xs) (List.sorted_insertionSort (keyLE k) xs)
    (fun v => (arraySort_filter hk v xs).trans (insertionSort_filter k v xs).symm)


/-! ### The sort reads the comparator on the elements only -/

theorem splitRun_congr {α : Type} (c₁ c₂ : α → α → JSNumber) (d : Bool) :
    ∀ (p : α) (l : List α),
      (∀ x ∈ p :: l, ∀ y ∈ p :: l,
        compareArrayElements c₁ x y = compareArrayElements c₂ x y) →
      splitRun c₁ d p l = splitRun c₂ d p l
  | _, [], _ => rfl
  | p, c :: rest, h => by
    have hcp := h c (by simp) p (by simp)
    have ih := splitRun_congr c₁ c₂ d c rest
      (fun x hx y hy => h x (List.mem_cons_of_mem _ hx) y (List.mem_cons_of_mem _ hy))
    simp only [splitRun, hcp, ih]

theorem countAndMakeRun_congr {α : Type} (c₁ c₂ : α → α → JSNumber) :
    ∀ xs : List α,
      (∀ x ∈ xs, ∀ y ∈ xs, compareArrayElements c₁ x y = compareArrayElements c₂ x y) →
      countAndMakeRun c₁ xs = countAndMakeRun c₂ xs
  | [], _ => rfl
  | [_], _ => rfl
  | a :: b :: rest, h => by
    have hba := h b (by simp) a (by simp)
    have hs : ∀ d, splitRun c₁ d b rest = splitRun c₂ d b rest := fun d =>
      splitRun_congr c₁ c₂ d b rest
        (fun x hx y hy => h x (List.mem_cons_of_mem _ hx) y (List.mem_cons_of_mem _ hy))
    simp only [countAndMakeRun, hba, hs]

theorem findInsertionPoint_congr {α : Type} (c₁ c₂ : α → α → JSNumber) (pivot : α)
    (sorted : List α)
    (h : ∀ y ∈ sorted, compareArrayElements c₁ pivot y = compareArrayElements c₂ pivot y) :
    ∀ fuel left right : Nat,
      findInsertionPoint c₁ pivot sorted fuel left right =
        findInsertionPoint c₂ pivot sorted fuel left right
  | 0, _, _ => rfl
  | fuel + 1, left, right => by
    by_cases hlt : left < right
    · cases hm : sorted[left + (right - left) / 2]? with
      | none => simp only [findInsertionPoint, if_pos hlt, hm]
      | some m =>
        have hpm := h m (List.getElem?_mem hm)
        simp only [findInsertionPoint, if_pos hlt, hm, hpm,
          findInsertionPoint_congr c₁ c₂ pivot sorted h fuel]
    · simp only [findInsertionPoint, if_neg hlt]

theorem binaryInsert_congr {α : Type} (c₁ c₂ : α → α → JSNumber) (pivot : α)
    (sorted : List α)
    (h : ∀ y ∈ sorted, compareArrayElements c₁ pivot y = compareArrayElements c₂ pivot y) :
    binaryInsert c₁ sorted pivot = binaryInsert c₂ sorted pivot := by
  unfold binaryInsert
  rw [findInsertionPoint_congr c₁ c₂ pivot sorted h]

theorem binaryInsertionSort_congr {α : Type} (c₁ c₂ : α → α → JSNumber) :
    ∀ (rest sorted : List α),
      (∀ x ∈ sorted ++ rest, ∀ y ∈ sorted ++ rest,
        compareArrayElements c₁ x y = compareArrayElements c₂ x y) →
      binaryInsertionSort c₁ sorted rest = binaryInsertionSort c₂ sorted rest
  | [], _, _ => rfl
  | p :: rest, sorted, h => by
    have hb : binaryInsert c₁ sorted p = binaryInsert c₂ sorted p :=
      binaryInsert_congr c₁ c₂ p sorted (fun y hy => h p (by simp) y (by simp [hy]))
    have hmem : ∀ x ∈ binaryInsert c₂ sorted p ++ rest, x ∈ sorted ++ p :: rest := by
      intro x hx
      rcases List.mem_append.1 hx with hx | hx
      · have := (binaryInsert_perm c₂ sorted p).mem_iff.1 hx
        rcases List.mem_cons.1 this with rfl | hs
        · simp
        · simp [hs]
      · simp [hx]
    have ih := binaryInsertionSort_congr c₁ c₂ rest (binaryInsert c₂ sorted p)
      (fun x hx y hy => h x (hmem x hx) y (hmem y hy))
    unfold binaryInsertionSort at ih ⊢
    rw [List.foldl_cons, List.foldl_cons, hb]
    exact ih

theorem arraySort_congr {α : Type} (c₁ c₂ : α → α → JSNumber) (xs : List α)
    (h : ∀ x ∈ xs, ∀ y ∈ xs, compareArrayElements c₁ x y = compareArrayElements c₂ x y) :
    arraySort c₁ xs = arraySort c₂ xs := by
  unfold arraySort
  rw [countAndMakeRun_congr c₁ c₂ xs h]
  refine binaryInsertionSort_congr c₁ c₂ _ _ (fun x hx y hy => ?_)
  exact h x ((countAndMakeRun_perm c₂ xs).mem_iff.1 hx) y ((countAndMakeRun_perm c₂ xs).mem_iff.1 hy)

/-! ### Insertion sort on relations that agree on the elements -/

theorem orderedInsert_congr {α : Type} (r s : α → α → Prop) [DecidableRel r] [DecidableRel s]
    (a : α) : ∀ l : List α, (∀ b ∈ l, r a b ↔ s a b) →
      l.orderedInsert r a = l.orderedInsert s a
  | [], _ => rfl
  | b :: l, h => by
    have hb : r a b ↔ s a b := h b (List.mem_cons_self _ _)
    have ih := orderedInsert_congr r s a l (fun c hc => h c (List.mem_cons_of_mem _ hc))
    by_cases hab : r a b
    · simp only [List.orderedInsert, if_pos hab, if_pos (hb.1 hab)]
    · simp only [List.orderedInsert, if_neg hab, if_neg (fun hs => hab (hb.2 hs)), ih]

theorem insertionSort_congr {α : Type} (r s : α → α → Prop) [DecidableRel r] [DecidableRel s] :
    ∀ l : List α, (∀ a ∈ l, ∀ b ∈ l, r a b ↔ s a b) →
      l.insertionSort r = l.insertionSort s
  | [], _ => rfl
  | a :: l, h => by
    have ih := insertionSort_congr r s l
      (fun x hx y hy => h x (List.mem_cons_of_mem _ hx) y (List.mem_cons_of_mem _ hy))
    rw [List.insertionSort, List.insertionSort, ih]
    refine orderedInsert_congr r s a _ (fun b hb => ?_)
    rw [List.mem_insertionSort] at hb
    exact h a (List.mem_cons_self _ _) b (List.mem_cons_of_mem _ hb)

/-! ### `formatEntries` when no geofence type is an inherited name -/

/-- With no geofence type equal to a name inherited from `Object.prototype`,
`formatEntries` is the stable sort by rank of the formatted rows. -/
theorem formatEntries_eq_stableSortByRank (trackedVessels : List TrackedVessel)
    (h : ∀ v ∈ trackedVessels, PlainType (formatRow v).GeofenceType) :
    formatEntries trackedVessels = stableSortByRank (trackedVessels.map formatRow) := by
  have hcongr : arraySort sortGeofenceType (trackedVessels.map formatRow) =
      arraySort rankCompare (trackedVessels.map formatRow) := by
    refine arraySort_congr _ _ _ (fun a ha b hb => ?_)
    obtain ⟨va, hva, rfl⟩ := List.mem_map.1 ha
    obtain ⟨vb, hvb, rfl⟩ := List.mem_map.1 hb
    rw [compare_of_plain _ _ (h va hva) (h vb hvb)]
    rfl
  unfold formatEntries stableSortByRank
  rw [hcongr, arraySort_eq_insertionSort rankCompare_key]
  exact insertionSort_congr _ _ _ (fun _ _ _ _ => Iff.rfl)

/-- With no geofence type equal to an inherited name, the rows come out in
non-decreasing rank order. -/
theorem formatEntries_sorted_of_plain (trackedVessels : List TrackedVessel)
    (h : ∀ v ∈ trackedVessels, PlainType (formatRow v).GeofenceType) :
    (formatEntries trackedVessels).Sorted rankLE := by
  rw [formatEntries_eq_stableSortByRank trackedVessels h]
  exact List.sorted_insertionSort rankLE _

/-- Stability when no geofence type is an inherited name: two formatted rows in
rank order (equal ranks included) that follow one another in the input do so
in the output. -/
theorem formatEntries_stable_of_plain (trackedVessels : List TrackedVessel)
    (h : ∀ v ∈ trackedVessels, PlainType (formatRow v).GeofenceType) (a b : VesselRow)
    (hab : rankLE a b) (hsub : [a, b].Sublist (trackedVessels.map formatRow)) :
    [a, b].Sublist (formatEntries trackedVessels) := by
  rw [formatEntries_eq_stableSortByRank trackedVessels h]
  exact List.pair_sublist_insertionSort hab hsub

/-- An input whose formatted rows are already in rank order is returned as it
is, whatever the types. -/
theorem formatEntries_of_sorted (trackedVessels : List TrackedVessel)
    (h : (trackedVessels.map formatRow).Sorted rankLE) :
    formatEntries trackedVessels = trackedVessels.map formatRow := by
  unfold formatEntries
  refine arraySort_eq_of_chain _ _ ?_
  exact (List.Pairwise.chain' h).imp runLE_of_rankLE

/-- The lemmas above at a concrete input without inherited names: the rows
come out as Berth, Berth, Anchorage, "N/A", then the unknown type and the
missing type in their input order. -/
theorem formatEntries_plain_example :
    (formatEntries [vesselOfType "Anchorage", vesselOfType "harbour", vesselOfType "Berth",
        vesselOfType "", vesselOfType "N/A", vesselOfType "Berth"]).map
          VesselRow.GeofenceType =
        [.str "Berth", .str "Berth", .str "Anchorage", .str "N/A", .str "harbour", .str "-"] ∧
      (formatEntries [vesselOfType "Anchorage", vesselOfType "harbour", vesselOfType "Berth",
        vesselOfType "", vesselOfType "N/A", vesselOfType "Berth"]).Sorted rankLE :=
  ⟨by decide,
    formatEntries_sorted_of_plain _ (by decide)⟩

/-! ### `formatEntries` on every input -/

/-- Neighbours of the output are accepted by the run scan of the sort. -/
theorem formatEntries_chain (trackedVessels : List TrackedVessel) :
    (formatEntries trackedVessels).Chain' (runLE sortGeofenceType) :=
  arraySort_chain _ compare_anti _

/-- The engine order at two inputs that hold the inherited name "constructor",
read off the case ids: Terminal 1, Berth 2, "constructor" 3, Berth 4 come out
as 2, 4, 1, 3; and of seven rows the Berth row 7 comes out before the
"constructor" row 5 and the Berth row 6, so rows of one rank change places. -/
theorem formatEntries_inheritedName_examples :
    (formatEntries [vesselOfCase "Terminal" 1, vesselOfCase "Berth" 2,
        vesselOfCase "constructor" 3, vesselOfCase "Berth" 4]).map VesselRow.CaseId =
        [.num 2, .num 4, .num 1, .num 3] ∧
      (formatEntries [vesselOfCase "Berth" 1, vesselOfCase "Berth" 2, vesselOfCase "Terminal" 3,
        vesselOfCase "Berth" 4, vesselOfCase "constructor" 5, vesselOfCase "Berth" 6,
        vesselOfCase "Berth" 7]).map VesselRow.CaseId =
        [.num 1, .num 2, .num 4, .num 7, .num 3, .num 5, .num 6] := by
  decide

theorem geofenceType_reformat (r : VesselRow) (h : ∃ v, r = formatRow v) :
    (formatRow (rowAsVessel r)).GeofenceType = r.GeofenceType := by
  obtain ⟨v, rfl⟩ := h
  exact jsOr_idem v.GeofenceType "-" (by decide)

theorem mem_formatEntries (trackedVessels : List TrackedVessel) (r : VesselRow)
    (h : r ∈ formatEntries trackedVessels) : ∃ v, r = formatRow v := by
  unfold formatEntries at h
  rw [(arraySort_perm sortGeofenceType _).mem_iff] at h
  obtain ⟨v, _, rfl⟩ := List.mem_map.1 h
  exact ⟨v, rfl⟩

/-! ### `handleRowClick` -/

theorem jsTrim_empty : jsTrim "" = "" := rfl

theorem ne_empty_of_jsTrim_ne_empty (s : String) (h : jsTrim s ≠ "") : s ≠ "" := by
  intro hs; subst hs; exact h jsTrim_empty

/-- The handler on a row whose name is a string that is not empty once trimmed:
the search of the list decides. -/
theorem handleRowClick_str (vessels : List Vessel) (rowData : VesselRow) (s : String)
    (hname : rowData.AISName = .str s) (hne : jsTrim s ≠ "") :
    handleRowClick vessels rowData =
      match findVessel (jsTrim s) vessels with
      | .threw => .typeError
      | .found selectedVesselData => .onRowClick selectedVesselData
      | .notFound => .warnNotFound (jsTrim s) := by
  have ht : truthy (.str s) = true := truthy_str s (ne_empty_of_jsTrim_ne_empty s hne)
  unfold handleRowClick
  rw [hname, if_pos ht]
  simp only [trimMethod, if_neg hne]

/-- The handler on a row whose name is missing or empty: it warns before the
list is read, so the list does not matter. -/
theorem handleRowClick_blank (vessels : List Vessel) (rowData : VesselRow)
    (h : Blank rowData.AISName) : handleRowClick vessels rowData = .warnEmptyName := by
  have ht : truthy rowData.AISName = false := (blank_iff_not_truthy _).1 h
  unfold handleRowClick
  rw [if_neg (by simp [ht])]
  simp

/-- The handler on a row whose name is a string that trims to nothing. -/
theorem handleRowClick_trims_empty (vessels : List Vessel) (rowData : VesselRow) (s : String)
    (hname : rowData.AISName = .str s) (he : jsTrim s = "") :
    handleRowClick vessels rowData = .warnEmptyName := by
  by_cases hs : s = ""
  · exact handleRowClick_blank vessels rowData (by rw [hname, hs]; simp [Blank])
  · unfold handleRowClick
    rw [hname, if_pos (truthy_str s hs)]
    simp only [trimMethod, he, if_true]

/-- The search finds the first vessel with the wanted trimmed name when every
vessel before it has a string name. -/
theorem findVessel_found (selectedVesselName : String) (v : Vessel) (n : String)
    (after : List Vessel) (hv : v.name = .str n) (hn : jsTrim n = selectedVesselName) :
    ∀ before : List Vessel,
      (∀ u ∈ before, ∃ m, u.name = .str m ∧ jsTrim m ≠ selectedVesselName) →
      findVessel selectedVesselName (before ++ v :: after) = .found v
  | [], _ => by
    simp only [List.nil_append, findVessel, hv, trimMethod, hn, if_true]
  | u :: before, h => by
    obtain ⟨m, hm, hne⟩ := h u (List.mem_cons_self _ _)
    have ih := findVessel_found selectedVesselName v n after hv hn before
      (fun w hw => h w (List.mem_cons_of_mem _ hw))
    rw [List.cons_append]
    simp only [findVessel, hm, trimMethod, if_neg hne]
    exact ih

/-- The search finds nothing when every vessel has a string name other than the
wanted one. -/
theorem findVessel_notFound (selectedVesselName : String) :
    ∀ vessels : List Vessel,
      (∀ u ∈ vessels, ∃ m, u.name = .str m ∧ jsTrim m ≠ selectedVesselName) →
      findVessel selectedVesselName vessels = .notFound
  | [], _ => rfl
  | u :: vessels, h => by
    obtain ⟨m, hm, hne⟩ := h u (List.mem_cons_self _ _)
    have ih := findVessel_notFound selectedVesselName vessels
      (fun w hw => h w (List.mem_cons_of_mem _ hw))
    simp only [findVessel, hm, trimMethod, if_neg hne, ih]

/-- Where the vessels up to the first match all have a string name, the handler
passes that first match to `onRowClick`. -/
theorem handleRowClick_match_of_string_names (before after : List Vessel) (v : Vessel)
    (rowData : VesselRow) (s n : String)
    (hname : rowData.AISName = .str s) (hne : jsTrim s ≠ "")
    (hbefore : ∀ u ∈ before, ∃ m, u.name = .str m ∧ jsTrim m ≠ jsTrim s)
    (hv : v.name = .str n) (hn : jsTrim n = jsTrim s) :
    handleRowClick (before ++ v :: after) rowData = .onRowClick v := by
  rw [handleRowClick_str _ rowData s hname hne,
    findVessel_found (jsTrim s) v n after hv hn before hbefore]

/-- Where every vessel has a string name and none matches, the handler warns. -/
theorem handleRowClick_miss_of_string_names (vessels : List Vessel) (rowData : VesselRow)
    (s : String) (hname : rowData.AISName = .str s) (hne : jsTrim s ≠ "")
    (hall : ∀ u ∈ vessels, ∃ m, u.name = .str m ∧ jsTrim m ≠ jsTrim s) :
    handleRowClick vessels rowData = .warnNotFound (jsTrim s) := by
  rw [handleRowClick_str _ rowData s hname hne, findVessel_notFound (jsTrim s) vessels hall]

/-- The two lemmas above at the example of the specification: the row named
"  M/V Example  " against the list with the one vessel "M/V Example", and
against a list without it. -/
theorem handleRowClick_example :
    handleRowClick [⟨.str "M/V Example", []⟩] (rowNamed (.str "  M/V Example  ")) =
        .onRowClick ⟨.str "M/V Example", []⟩ ∧
      handleRowClick [⟨.str "", []⟩, ⟨.str " ", []⟩] (rowNamed (.str "  M/V Example  ")) =
        .warnNotFound "M/V Example" :=
  ⟨handleRowClick_match_of_string_names [] [] ⟨.str "M/V Example", []⟩ _ "  M/V Example  "
      "M/V Example" rfl (by decide) (by simp) rfl (by decide),
    handleRowClick_miss_of_string_names _ _ "  M/V Example  " rfl (by decide) (by
      intro u hu
      simp only [List.mem_cons, List.mem_singleton, List.mem_nil_iff, or_false] at hu
      rcases hu with rfl | rfl
      · exact ⟨"", rfl, by decide⟩
      · exact ⟨" ", rfl, by decide⟩)⟩

end Vesseleighthours

namespace CustomField

theorem length_eq_zero_iff (s : String) : s.length = 0 ↔ s = "" := by
  constructor
  · intro h
    cases s with
    | mk l =>
      have hl : l = [] := List.length_eq_zero.mp h
      subst hl; rfl
  · intro h; subst h; rfl

theorem checkRequired_iff (v : Option String) :
    checkRequired { type := .String, required := true } v = true ↔ NonEmptyString v := by
  cases v with
  | none => simp [checkRequired, NonEmptyString]
  | some s =>
    simp [checkRequired, NonEmptyString, length_eq_zero_iff]

theorem ite_nil_eq_nil {c : Bool} {x : String} :
    (if c = true then [] else [x]) = ([] : List String) ↔ c = true := by
  cases c <;> simp

theorem entriesErrors_eq_nil (i : Nat) (es : List Entry) :
    entriesErrors CustomFieldSchema.customData i es = [] ↔
      ∀ e ∈ es, NonEmptyString e.imoNumber ∧ NonEmptyString e.data := by
  induction es generalizing i with
  | nil => simp [entriesErrors]
  | cons e es ih =>
    have h1 := checkRequired_iff e.imoNumber
    have h2 := checkRequired_iff e.data
    simp only [entriesErrors, entryErrors, List.append_eq_nil, ih (i + 1), List.mem_cons,
      forall_eq_or_imp, ite_nil_eq_nil, ← h1, ← h2]
    simp only [CustomFieldSchema]

end CustomField

/-! ## Claims -/

namespace Vesseleighthours

/-- C2: `formatEntries` returns exactly as many rows as there are input
records, and its output is a permutation of the list obtained by formatting
each input record on its own (no row dropped, none duplicated). -/
theorem formatEntries_perm_map (trackedVessels : List TrackedVessel) :
    (formatEntries trackedVessels).length = trackedVessels.length ∧
      (formatEntries trackedVessels).Perm (trackedVessels.map formatRow) := by
  have h := arraySort_perm sortGeofenceType (trackedVessels.map formatRow)
  exact ⟨by rw [formatEntries, h.length_eq, List.length_map], h⟩

/-- C3, counterexample: the number 0 is present and is not the empty string,
yet a record whose CaseId is 0 gets the row field "-" and not 0; so "the
field equals the record's value when that value is present and non-empty"
fails. -/
theorem formatRow_caseId_zero :
    PresentNonEmpty (.num 0) ∧
      (formatRow { vesselOfType "Berth" with CaseId := .num 0 }).CaseId = .str "-" ∧
      ¬ ∀ vessel : TrackedVessel, PresentNonEmpty vessel.CaseId →
          (formatRow vessel).CaseId = vessel.CaseId := by
  refine ⟨⟨by decide, by decide, by decide⟩, by decide, fun h => ?_⟩
  have h0 := h { vesselOfType "Berth" with CaseId := .num 0 } ⟨by decide, by decide, by decide⟩
  exact absurd h0 (by decide)

/-- C3, amended: every field of the row built for a record is the record's
value unless that value is `undefined`, `null`, the empty string, the number
0 or `false`, and is its sentinel in those cases ("N/A" for IMO, ETA,
Destination, Agent, AgentName; "Unknown Vessel" for AISName; "-" for
GeofenceStatus, GeofenceType, CaseId, Info1, ETATime, ETADate). The values
of IMO, AISName, ETA and Destination are the properties IMO, NAME, ETA and
DESTINATION of the record's AIS object; a record without AIS data gets the
four sentinels. No row field is ever blank. -/
theorem formatRow_defaulted (vessel : TrackedVessel) :
    (∀ ais : AISData, vessel.AIS = some ais →
        Defaulted ais.IMO "N/A" (formatRow vessel).IMO ∧
        Defaulted ais.NAME "Unknown Vessel" (formatRow vessel).AISName ∧
        Defaulted ais.ETA "N/A" (formatRow vessel).ETA ∧
        Defaulted ais.DESTINATION "N/A" (formatRow vessel).Destination) ∧
    (vessel.AIS = none →
        (formatRow vessel).IMO = .str "N/A" ∧
        (formatRow vessel).AISName = .str "Unknown Vessel" ∧
        (formatRow vessel).ETA = .str "N/A" ∧
        (formatRow vessel).Destination = .str "N/A") ∧
    Defaulted vessel.GeofenceStatus "-" (formatRow vessel).GeofenceStatus ∧
    Defaulted vessel.GeofenceType "-" (formatRow vessel).GeofenceType ∧
    Defaulted vessel.CaseId "-" (formatRow vessel).CaseId ∧
    Defaulted vessel.Info1 "-" (formatRow vessel).Info1 ∧
    Defaulted vessel.ETATime "-" (formatRow vessel).ETATime ∧
    Defaulted vessel.ETADate "-" (formatRow vessel).ETADate ∧
    Defaulted vessel.Agent "N/A" (formatRow vessel).Agent ∧
    Defaulted vessel.AgentName "N/A" (formatRow vessel).AgentName := by
  refine ⟨fun ais h => ?_, fun h => ?_, defaulted_jsOr _ _ (by decide),
    defaulted_jsOr _ _ (by decide), defaulted_jsOr _ _ (by decide),
    defaulted_jsOr _ _ (by decide), defaulted_jsOr _ _ (by decide),
    defaulted_jsOr _ _ (by decide), defaulted_jsOr _ _ (by decide),
    defaulted_jsOr _ _ (by decide)⟩
  · simp only [formatRow, aisField, h]
    exact ⟨defaulted_jsOr _ _ (by decide), defaulted_jsOr _ _ (by decide),
      defaulted_jsOr _ _ (by decide), defaulted_jsOr _ _ (by decide)⟩
  · simp only [formatRow, aisField, h]
    exact ⟨rfl, rfl, rfl, rfl⟩

/-- Witness of C3: the amended rule at `sampleVessel`, whose AIS object holds
the IMO "9074729", an empty NAME, no ETA and the DESTINATION "ROTTERDAM". -/
theorem formatRow_defaulted_witness :
    sampleVessel.AIS = some ⟨.str "9074729", .str "", .undefined, .str "ROTTERDAM"⟩ ∧
      formatRow sampleVessel =
        { IMO := .str "9074729", AISName := .str "Unknown Vessel", GeofenceStatus := .str "Inside",
          ETA := .str "N/A", Destination := .str "ROTTERDAM", GeofenceType := .str "Berth",
          CaseId := .str "-", Info1 := .str "-", ETATime := .str "-", ETADate := .str "-",
          Agent := .num 7, AgentName := .str "ACME" } ∧
      (Defaulted (.str "9074729") "N/A" (formatRow sampleVessel).IMO ∧
        Defaulted (.str "") "Unknown Vessel" (formatRow sampleVessel).AISName ∧
        Defaulted .undefined "N/A" (formatRow sampleVessel).ETA ∧
        Defaulted (.str "ROTTERDAM") "N/A" (formatRow sampleVessel).Destination) :=
  ⟨rfl, by decide, (formatRow_defaulted sampleVessel).1 _ rfl⟩

/-- C7: formatting the rows `formatEntries` returned once more does not
reorder them: the second result is the first one re-formatted row by row, in
the same order, so its sequence of GeofenceType values is that of the first
result. -/
theorem formatEntries_idempotent_order (trackedVessels : List TrackedVessel) :
    formatEntries ((formatEntries trackedVessels).map rowAsVessel) =
        (formatEntries trackedVessels).map (fun r => formatRow (rowAsVessel r)) ∧
      (formatEntries ((formatEntries trackedVessels).map rowAsVessel)).map
          VesselRow.GeofenceType =
        (formatEntries trackedVessels).map VesselRow.GeofenceType := by
  have hmem := mem_formatEntries trackedVessels
  have hgt : ∀ r ∈ formatEntries trackedVessels,
      (formatRow (rowAsVessel r)).GeofenceType = r.GeofenceType :=
    fun r hr => geofenceType_reformat r (hmem r hr)
  have hchain : ((formatEntries trackedVessels).map
      (fun r => formatRow (rowAsVessel r))).Chain' (runLE sortGeofenceType) := by
    rw [List.chain'_map]
    refine (List.Chain'.iff_mem.1 (formatEntries_chain trackedVessels)).imp ?_
    rintro a b ⟨ha, hb, hab⟩
    exact runLE_congr a b _ _ (hgt a ha).symm (hgt b hb).symm hab
  have hfirst : formatEntries ((formatEntries trackedVessels).map rowAsVessel) =
      (formatEntries trackedVessels).map (fun r => formatRow (rowAsVessel r)) := by
    conv_lhs => unfold formatEntries
    rw [List.map_map]
    exact arraySort_eq_of_chain _ _ hchain
  refine ⟨hfirst, ?_⟩
  rw [hfirst, List.map_map]
  exact List.map_congr_left (fun r hr => hgt r hr)

/-- C9, evaluated at the geofence type "constructor": the comparator returns
NaN, not the rank difference 5 - 1 = 4; the sort reads NaN as 0, so
Anchorage ties with "constructor" and "constructor" ties with Berth while
Anchorage is above Berth (no transitivity), and rows of ranks 3 and 5 compare
as 0. -/
theorem sortGeofenceType_constructor_nan :
    sortGeofenceType (formatRow (vesselOfType "constructor"))
        (formatRow (vesselOfType "Berth")) = .nan ∧
      geofenceRank (.str "constructor") - geofenceRank (.str "Berth") = 4 ∧
      compareArrayElements sortGeofenceType (formatRow (vesselOfType "Anchorage"))
        (formatRow (vesselOfType "constructor")) = 0 ∧
      compareArrayElements sortGeofenceType (formatRow (vesselOfType "constructor"))
        (formatRow (vesselOfType "Berth")) = 0 ∧
      compareArrayElements sortGeofenceType (formatRow (vesselOfType "Anchorage"))
        (formatRow (vesselOfType "Berth")) = 2 ∧
      geofenceRank (.str "Anchorage") = 3 ∧ geofenceRank (.str "constructor") = 5 := by
  decide

/-- C1, evaluated at `inheritedNameInput`: the rows come out as Anchorage,
"constructor", Berth, of ranks 3, 5, 1: the Berth row of IMO "9074729" is
after the Anchorage row, and the ranks are not in non-decreasing order. -/
theorem formatEntries_inheritedName_order :
    (formatEntries inheritedNameInput).map VesselRow.GeofenceType =
        [.str "Anchorage", .str "constructor", .str "Berth"] ∧
      (formatEntries inheritedNameInput).map VesselRow.IMO =
        [.str "N/A", .str "N/A", .str "9074729"] ∧
      (formatEntries inheritedNameInput).map (fun r => geofenceRank r.GeofenceType) =
        [3, 5, 1] ∧
      ¬ (formatEntries inheritedNameInput).Sorted rankLE := by
  decide

/-- C10, evaluated at `inheritedNameInput`: the output (Anchorage,
"constructor", Berth) is not the stable sort by rank of the formatted rows
(Berth, Anchorage, "constructor"). -/
theorem formatEntries_inheritedName_ne_stableSort :
    formatEntries inheritedNameInput ≠
        stableSortByRank (inheritedNameInput.map formatRow) ∧
      (stableSortByRank (inheritedNameInput.map formatRow)).map VesselRow.GeofenceType =
        [.str "Berth", .str "Anchorage", .str "constructor"] ∧
      (formatEntries inheritedNameInput).map VesselRow.GeofenceType =
        [.str "Anchorage", .str "constructor", .str "Berth"] := by
  decide

/-- C4, evaluated at the list `[{}, {name: "A"}]` and the row named "A": the
list holds a vessel whose trimmed name is the trimmed AISName, but the search
reads `name.trim()` of the first vessel, which has no name, and throws a
TypeError; `onRowClick` is not called. With the two vessels exchanged the
match is passed to `onRowClick`. -/
theorem handleRowClick_nameless_before_match :
    handleRowClick [⟨.undefined, []⟩, ⟨.str "A", []⟩] (rowNamed (.str "A")) = .typeError ∧
      jsTrim "A" ≠ "" ∧
      trimMethod (Vessel.name ⟨.str "A", []⟩) = some (jsTrim "A") ∧
      handleRowClick [⟨.str "A", []⟩, ⟨.undefined, []⟩] (rowNamed (.str "A")) =
        .onRowClick ⟨.str "A", []⟩ := by
  decide

/-- C5, evaluated at the list `[{}]` and the row named "A": no vessel of the
list has the trimmed name "A", yet the handler does not end in a warning: it
throws a TypeError at `vessel.name.trim()`. The same happens, before the list
is read, for the row that `formatEntries` builds from a record whose AIS NAME
is the number 123. -/
theorem handleRowClick_nameless_no_match :
    handleRowClick [⟨.undefined, []⟩] (rowNamed (.str "A")) = .typeError ∧
      (∀ v ∈ [(⟨.undefined, []⟩ : Vessel)], trimMethod v.name ≠ some (jsTrim "A")) ∧
      (formatRow { vesselOfType "Berth" with
        AIS := some ⟨.undefined, .num 123, .undefined, .undefined⟩ }).AISName = .num 123 ∧
      handleRowClick [] (formatRow { vesselOfType "Berth" with
        AIS := some ⟨.undefined, .num 123, .undefined, .undefined⟩ }) = .typeError := by
  decide

/-- C8: a failed fetch leaves the tracked list and the data source unchanged;
after the failed fetch of a mount both are still empty and the component
renders the message "No vessels data to display", not the grid. -/
theorem rejected_fetch_shows_empty_state :
    (∀ s : ComponentState, afterFetch s .rejected = s) ∧
      (mounted .rejected).trackedVessels = [] ∧
      (mounted .rejected).dataSource = [] ∧
      render (mounted .rejected) = .emptyMessage "No vessels data to display" :=
  ⟨fun _ => rfl, rfl, rfl, rfl⟩

end Vesseleighthours

namespace CustomField

/-- C6: a CustomField document passes validation against `CustomFieldSchema`
exactly when `header` and `headertype` are non-empty strings and every
`customData` entry has a non-empty `imoNumber` and a non-empty `data`; an
empty `customData` is accepted, and one entry without `data` rejects the
whole document. -/
theorem passes_iff (d : Document) :
    (passes CustomFieldSchema d ↔
      NonEmptyString d.header ∧ NonEmptyString d.headertype ∧
        ∀ e ∈ d.customData, NonEmptyString e.imoNumber ∧ NonEmptyString e.data) ∧
    (passes CustomFieldSchema { d with customData := [] } ↔
      NonEmptyString d.header ∧ NonEmptyString d.headertype) ∧
    ∀ (imo : Option String) (before after : List Entry),
      ¬ passes CustomFieldSchema
        { d with customData := before ++ ⟨imo, none⟩ :: after } := by
  have key : ∀ d : Document, passes CustomFieldSchema d ↔
      NonEmptyString d.header ∧ NonEmptyString d.headertype ∧
        ∀ e ∈ d.customData, NonEmptyString e.imoNumber ∧ NonEmptyString e.data := by
    intro d
    have h1 := checkRequired_iff d.header
    have h2 := checkRequired_iff d.headertype
    have h3 := entriesErrors_eq_nil 0 d.customData
    simp only [passes, validate, List.append_eq_nil, h3, ite_nil_eq_nil, ← h1, ← h2]
    simp only [CustomFieldSchema, and_assoc]
  refine ⟨key d, ?_, ?_⟩
  · rw [key]; simp
  · intro imo before after h
    rw [key] at h
    have := (h.2.2 ⟨imo, none⟩ (by simp)).2
    obtain ⟨s, hs, _⟩ := this
    cases hs

end CustomField
